import Mathlib

/-!
Verification of the `mqt` interactive Markdown query TUI.

This file shallowly embeds the interaction engine (`src/app.rs`) and the
lazy tree materializer (`src/ui/treeview.rs`) and proves properties of the
embedded definitions.  External collaborators (the `mq_markdown` parser,
the `mq_lang` query engine, the clipboard) are modelled as parameters with
the contracts stated in the spec, since their code is not part of this
repository.  Wall-clock bookkeeping (`last_exec_time`, `last_exec`) is not
modelled: no verified property mentions it.
-/

set_option maxHeartbeats 1000000

namespace Mqt

/-- The document node model (`mq_markdown::Node`), restricted to the fields
this repository's code reads.  The variant set mirrors the `match` arms of
`TreeItem::create_display_text`, `TreeItem::has_children` and
`TreeItem::get_children` in `src/ui/treeview.rs`; payload fields that the
repository never touches (positions, urls, titles, metadata, …) are
omitted. -/
inductive MdNode where
  | heading (depth : Nat) (values : List MdNode)
  | list (ordered : Bool) (values : List MdNode)
  | code (lang : Option String) (value : String)
  | blockquote (values : List MdNode)
  | strong (values : List MdNode)
  | emphasis (values : List MdNode)
  | link (values : List MdNode)
  | image (alt : String)
  | text (value : String)
  | horizontalRule
  | tableHeader
  | tableRow (values : List MdNode)
  | tableCell (values : List MdNode)
  | lineBreak
  | html (value : String)
  | math (value : String)
  | mathInline (value : String)
  | codeInline (value : String)
  | delete (values : List MdNode)
  | yaml (value : String)
  | toml (value : String)
  | fragment (values : List MdNode)
  | footnote (values : List MdNode)
  | footnoteRef (ident : String)
  | definition (ident : String)
  | imageRef (ident : String)
  | linkRef (ident : String) (values : List MdNode)
  | mdxFlowExpression
  | mdxJsxFlowElement (name : Option String) (children : List MdNode)
  | mdxJsxTextElement (name : Option String) (children : List MdNode)
  | mdxTextExpression
  | mdxJsEsm
  | empty

/-- `TreeItem::has_children` (src/ui/treeview.rs:113-130): container-like
variants report children exactly when their stored child list is non-empty;
every other variant (including `LinkRef`, which carries values but is not
listed in the Rust `match`) reports `false`. -/
def has_children : MdNode → Bool
  | .heading _ values => !values.isEmpty
  | .list _ values => !values.isEmpty
  | .blockquote values => !values.isEmpty
  | .strong values => !values.isEmpty
  | .emphasis values => !values.isEmpty
  | .link values => !values.isEmpty
  | .delete values => !values.isEmpty
  | .fragment values => !values.isEmpty
  | .footnote values => !values.isEmpty
  | .tableRow values => !values.isEmpty
  | .tableCell values => !values.isEmpty
  | .mdxJsxFlowElement _ children => !children.isEmpty
  | .mdxJsxTextElement _ children => !children.isEmpty
  | _ => false

/-- `TreeItem::get_children` (src/ui/treeview.rs:132-149). -/
def get_children : MdNode → List MdNode
  | .heading _ values => values
  | .list _ values => values
  | .blockquote values => values
  | .strong values => values
  | .emphasis values => values
  | .link values => values
  | .delete values => values
  | .fragment values => values
  | .footnote values => values
  | .tableRow values => values
  | .tableCell values => values
  | .mdxJsxFlowElement _ children => children
  | .mdxJsxTextElement _ children => children
  | _ => []

/-- A flattened visible row (`TreeItem`, src/ui/treeview.rs:11-19).  The
derived `display_text` field is a pure function of `node`
(`create_display_text`, modelled separately below) and never influences the
row structure, so it is not stored on the row. -/
structure TreeItem where
  node : MdNode
  depth : Nat
  is_expanded : Bool
  has_children : Bool
  index : Nat

/-- The expansion store.  The Rust code keeps a `HashMap<usize, bool>` and
reads it with `.get(&i).unwrap_or(&tree_item.is_expanded)` where
`TreeItem::new` always initializes `is_expanded` to `false`, so
observationally the store is a total map from identities to booleans
defaulting to `false`. -/
abbrev ExpMap := Nat → Bool

/-- `HashMap::insert` on the observational view of the expansion store. -/
def ExpMap.insert (m : ExpMap) (k : Nat) (b : Bool) : ExpMap :=
  fun j => if j = k then b else m j

def mk_item (n : MdNode) (d i : Nat) (exp : Bool) : TreeItem :=
  ⟨n, d, exp, has_children n, i⟩

/-- Termination measure fact for the builds below: a node's stored child
list is no larger than the node itself. -/
theorem sizeOf_get_children_le (n : MdNode) : sizeOf (get_children n) ≤ sizeOf n := by
  cases n <;> simp [get_children] <;> omega

/-- The pre-order build of the flat row list
(`TreeView::rebuild_items`/`TreeView::add_node_recursive`,
src/ui/treeview.rs:172-202): each visited node consumes one identity from
the running counter `i`, is emitted with its expansion flag looked up at
that identity, and its children are visited (consuming identities) only
when the node is expanded and has children.  The Rust code pushes one row
per call of `add_node_recursive` and loops over `original_nodes`; here the
loop and the recursion are fused into one list-valued function. -/
def build_items (m : ExpMap) : List MdNode → Nat → Nat → List TreeItem
  | [], _, _ => []
  | n :: rest, d, i =>
    if m i && !(get_children n).isEmpty then
      mk_item n d i (m i) ::
        (build_items m (get_children n) (d + 1) (i + 1) ++
          build_items m rest d
            (i + 1 + (build_items m (get_children n) (d + 1) (i + 1)).length))
    else
      mk_item n d i (m i) :: build_items m rest d (i + 1)
termination_by l _ _ => sizeOf l
decreasing_by
  all_goals have hle := sizeOf_get_children_le n
  all_goals simp
  all_goals omega

/-- `TreeView` (src/ui/treeview.rs:152-157). -/
structure TreeView where
  items : List TreeItem
  selected_index : Nat
  expanded_items : ExpMap
  original_nodes : List MdNode

namespace TreeView

/-- `TreeView::rebuild_items` (src/ui/treeview.rs:172-180). -/
def rebuild_items (tv : TreeView) : TreeView :=
  { tv with items := build_items tv.expanded_items tv.original_nodes 0 0 }

/-- `TreeView::new` (src/ui/treeview.rs:160-170): empty expansion map,
selection 0, immediate rebuild. -/
def new (nodes : List MdNode) : TreeView :=
  rebuild_items
    { items := [], selected_index := 0, expanded_items := fun _ => false,
      original_nodes := nodes }

/-- `TreeView::move_up` (src/ui/treeview.rs:204-208). -/
def move_up (tv : TreeView) : TreeView :=
  if tv.selected_index > 0 then { tv with selected_index := tv.selected_index - 1 }
  else tv

/-- `TreeView::move_down` (src/ui/treeview.rs:210-214). -/
def move_down (tv : TreeView) : TreeView :=
  if tv.selected_index + 1 < tv.items.length then
    { tv with selected_index := tv.selected_index + 1 }
  else tv

/-- `TreeView::toggle_expand` (src/ui/treeview.rs:216-226). -/
def toggle_expand (tv : TreeView) : TreeView :=
  match tv.items[tv.selected_index]? with
  | none => tv
  | some item =>
    if item.has_children then
      let m := tv.expanded_items.insert item.index (!item.is_expanded)
      let items := build_items m tv.original_nodes 0 0
      { tv with
        expanded_items := m
        items := items
        selected_index := min tv.selected_index (items.length - 1) }
    else tv

/-- `TreeView::get_selected_node` (src/ui/treeview.rs:228-230). -/
def get_selected_node (tv : TreeView) : Option MdNode :=
  tv.items[tv.selected_index]?.map TreeItem.node

end TreeView

/-- The identity assignment described by the spec's data-model section
("identities are pre-order positions computed over the fully-expanded
traversal"): the counter advances past a node by its *full* subtree size
whether or not the node is expanded, so each visible row's identity is the
position the node would occupy if every expandable node were expanded.
This definition follows the spec's words; it exists to be compared against
`build_items`, which follows the code. -/
def full_count_list : List MdNode → Nat
  | [] => 0
  | n :: rest => (1 + full_count_list (get_children n)) + full_count_list rest
termination_by l => sizeOf l
decreasing_by
  all_goals have hle := sizeOf_get_children_le n
  all_goals simp
  all_goals omega

/-- Companion to `full_count_list`: the spec-described build in which a
collapsed node's hidden descendants still consume identities. -/
def spec_build_items (m : ExpMap) : List MdNode → Nat → Nat → List TreeItem
  | [], _, _ => []
  | n :: rest, d, i =>
    if m i && !(get_children n).isEmpty then
      mk_item n d i (m i) ::
        (spec_build_items m (get_children n) (d + 1) (i + 1) ++
          spec_build_items m rest d (i + 1 + full_count_list (get_children n)))
    else
      mk_item n d i (m i) :: spec_build_items m rest d (i + 1 + full_count_list (get_children n))
termination_by l _ _ => sizeOf l
decreasing_by
  all_goals have hle := sizeOf_get_children_le n
  all_goals simp
  all_goals omega

/-- `str::trim` on the character-list view of a Rust string.  (Rust trims
Unicode `White_Space`; `Char.isWhitespace` covers the ASCII subset, which
is all the whitespace exercised here.) -/
def rust_trim (s : List Char) : List Char :=
  ((s.dropWhile Char.isWhitespace).reverse.dropWhile Char.isWhitespace).reverse

def trim_string (s : String) : String := String.mk (rust_trim s.data)

/-- `str::len` — the UTF-8 byte length. -/
def utf8_len (s : List Char) : Nat := (s.map Char.utf8Size).sum

/-- Rust byte slicing `&s[..n]`: defined exactly when `n` lands on a UTF-8
character boundary within the string; `none` models the slicing panic. -/
def take_bytes : List Char → Nat → Option (List Char)
  | _, 0 => some []
  | [], _ + 1 => none
  | c :: rest, n + 1 =>
    if c.utf8Size ≤ n + 1 then (take_bytes rest (n + 1 - c.utf8Size)).map (c :: ·)
    else none

/-- `TreeItem::create_display_text` (src/ui/treeview.rs:36-111).
`value` stands for the external `mq_markdown::Node::value()` accessor used
for heading and link children (a total string-valued function).  The
result is `none` exactly when the Rust code panics: the `Text` arm slices
the first 47 bytes of the trimmed value whenever the trimmed value is
longer than 50 bytes, and `&text[..47]` panics off a character boundary. -/
def create_display_text (value : MdNode → String) : MdNode → Option String
  | .heading depth values =>
    some ("H" ++ toString depth ++ " " ++
      String.join (values.map (fun nv => trim_string (value nv))))
  | .list ordered values =>
    some (if ordered then "Ordered List (" ++ toString values.length ++ " items)"
      else "Unordered List (" ++ toString values.length ++ " items)")
  | .code lang _ => some ("Code Block (" ++ lang.getD "text" ++ ")")
  | .blockquote _ => some "Blockquote"
  | .strong _ => some "Strong"
  | .emphasis _ => some "Emphasis"
  | .link values =>
    some ("Link: " ++ String.join (values.map (fun nv => trim_string (value nv))))
  | .image alt => some ("Image: " ++ alt)
  | .text v =>
    let t := rust_trim v.data
    if utf8_len t > 50 then
      (take_bytes t 47).map (fun pre => "Text: " ++ String.mk pre ++ "...")
    else
      some ("Text: " ++ String.mk t)
  | .horizontalRule => some "Horizontal Rule"
  | .tableHeader => some "Table Header"
  | .tableRow _ => some "Table Row"
  | .tableCell _ => some "Table Cell"
  | .lineBreak => some "Line Break"
  | .html v => some ("HTML: " ++ trim_string v)
  | .math v => some ("Math: " ++ trim_string v)
  | .mathInline v => some ("Inline Math: " ++ trim_string v)
  | .codeInline v => some ("Inline Code: " ++ trim_string v)
  | .delete _ => some "Strikethrough"
  | .yaml v => some ("YAML: " ++ trim_string v)
  | .toml v => some ("TOML: " ++ trim_string v)
  | .fragment _ => some "Fragment"
  | .footnote _ => some "Footnote"
  | .footnoteRef ident => some ("Footnote Ref: " ++ ident)
  | .definition ident => some ("Definition: " ++ ident)
  | .imageRef ident => some ("Image Ref: " ++ ident)
  | .linkRef ident _ => some ("Link Ref: " ++ ident)
  | .mdxFlowExpression => some "MDX Flow Expression"
  | .mdxJsxFlowElement name _ => some ("MDX JSX Element: " ++ name.getD "element")
  | .mdxJsxTextElement name _ => some ("MDX JSX Text: " ++ name.getD "element")
  | .mdxTextExpression => some "MDX Text Expression"
  | .mdxJsEsm => some "MDX JS ESM"
  | .empty => some "Empty"

/-- `Mode` (src/app.rs:18-24). -/
inductive Mode where
  | normal
  | query
  | help
  | treeView
deriving DecidableEq

/-- The modifier patterns the handlers distinguish (`crossterm`'s
`KeyModifiers` is a bit set; the code only ever matches `NONE`, `SHIFT`,
`CONTROL` exactly, or a wildcard, so one value per distinguished class
suffices). -/
inductive KeyModifier where
  | none
  | shift
  | control
  | other
deriving DecidableEq

/-- The key codes the handlers inspect (`crossterm::event::KeyCode`). -/
inductive KeyCode where
  | char (c : Char)
  | f (n : Nat)
  | backspace
  | enter
  | left
  | right
  | up
  | down
  | home
  | endKey
  | pageUp
  | pageDown
  | delete
  | esc

/-- A terminal event: a key press (code + modifiers; the handlers ignore
`kind`/`state`) or any non-key event (mouse, resize, …), which every
handler ignores. -/
inductive TermEvent where
  | key (code : KeyCode) (mods : KeyModifier)
  | other

/-- `mq_lang::RuntimeValue` as far as `exec_query` inspects it: either a
value carrying an embedded markdown node, or anything else (observed only
through its textual representation). -/
inductive RVal where
  | markdown (node : MdNode)
  | other (s : String)

/-- The per-value conversion in `exec_query` (src/app.rs:396-399): a
`Markdown` value contributes its node; any other value is converted via
`runtime_value.to_string().into()`, where `mq_markdown`'s `From<String>`
(external) builds a text node — per the spec, "any other returned value is
converted to a single text node via its textual representation". -/
def RVal.to_node : RVal → MdNode
  | .markdown node => node
  | .other s => .text s

/-- The external collaborators, per the contracts in spec §6:
`parse` is `mq_markdown::Markdown::from_markdown_str` (the parsed
document observed through its `nodes`), `evaluate` is
`mq_lang::Engine::eval` on a fresh engine with builtins loaded, and the
two booleans are the outcomes of `Clipboard::new()` and
`Clipboard::set_text`. -/
structure Ext where
  parse : String → Except String (List MdNode)
  evaluate : List Char → List RVal → Except String (List RVal)
  clipboard_new : Bool
  clipboard_set : Bool

/-- `App` (src/app.rs:26-57).  The query string and history entries are
kept as character lists (the Rust code tracks `cursor_position` as a byte
index that coincides with the character index for the inputs considered
here).  `last_exec_time`/`last_exec` (wall-clock) are not modelled. -/
structure App where
  content : String
  query : List Char
  results : List MdNode
  selected_idx : Nat
  should_quit : Bool
  error_msg : Option String
  mode : Mode
  show_detail : Bool
  query_history : List (List Char)
  history_position : Option Nat
  cursor_position : Nat
  filename : Option String
  tree_view : Option TreeView

/-- `App::new` (src/app.rs:60-78). -/
def App.new (content : String) : App :=
  { content := content
    query := []
    results := []
    selected_idx := 0
    should_quit := false
    error_msg := none
    mode := .normal
    show_detail := false
    query_history := []
    history_position := none
    cursor_position := 0
    filename := none
    tree_view := none }

/-- `App::with_file` (src/app.rs:80-84). -/
def App.with_file (content filename : String) : App :=
  { App.new content with filename := some filename }

/-- The trailing clamp of `exec_query` (src/app.rs:420-427): "Reset
selected index if it's now out of bounds". -/
def clamp_selected (a : App) : App :=
  if a.selected_idx ≥ a.results.length then
    { a with selected_idx := if a.results.isEmpty then 0 else a.results.length - 1 }
  else a

/-- `App::exec_query` (src/app.rs:378-431). -/
def exec_query (ext : Ext) (a : App) : App :=
  clamp_selected <|
    match ext.parse a.content with
    | .ok nodes =>
      if !a.query.isEmpty then
        match ext.evaluate a.query (nodes.map RVal.markdown) with
        | .ok results =>
          { a with results := results.map RVal.to_node, error_msg := none }
        | .error err =>
          -- Keep previous results
          { a with error_msg := some ("Query error: " ++ err) }
      else
        -- Show all nodes when query is empty
        { a with results := nodes, error_msg := none }
    | .error err =>
      { a with error_msg := some ("Markdown parse error: " ++ err), results := [] }

/-- `App::init_tree_view` (src/app.rs:366-376). -/
def init_tree_view (ext : Ext) (a : App) : App :=
  match ext.parse a.content with
  | .ok nodes => { a with tree_view := some (TreeView.new nodes) }
  | .error _ => { a with error_msg := some "Failed to parse markdown for tree view" }

/-- `String::insert` at a (character) position. -/
def insert_at (l : List Char) (i : Nat) (c : Char) : List Char :=
  l.take i ++ c :: l.drop i

/-- `String::remove` at a (character) position. -/
def remove_at (l : List Char) (i : Nat) : List Char :=
  l.take i ++ l.drop (i + 1)

/-- The `(KeyCode::Down, _) | (KeyCode::Char('j'), _)` arm of
`App::handle_normal_mode_event` (src/app.rs:151-155). -/
def normal_move_down (a : App) : App :=
  if !a.results.isEmpty then
    { a with selected_idx := (a.selected_idx + 1) % a.results.length }
  else a

/-- The `(KeyCode::Up, _) | (KeyCode::Char('k'), _)` arm (src/app.rs:156-164). -/
def normal_move_up (a : App) : App :=
  if !a.results.isEmpty then
    { a with selected_idx :=
        if a.selected_idx > 0 then a.selected_idx - 1 else a.results.length - 1 }
  else a

/-- The `(KeyCode::Char('y'), _)` clipboard arm (src/app.rs:191-205);
rendering of the result text is external and does not touch state. -/
def normal_copy_results (ext : Ext) (a : App) : App :=
  if !a.results.isEmpty then
    if ext.clipboard_new then
      if ext.clipboard_set then a
      else { a with error_msg := some "Error: Could not copy to clipboard" }
    else { a with error_msg := some "Error: Could not access clipboard" }
  else a

/-- `App::handle_normal_mode_event` (src/app.rs:122-211). -/
def handle_normal_mode_event (ext : Ext) (a : App) (e : TermEvent) : App :=
  match e with
  | .other => a
  | .key code mods =>
    match code with
    | .char c =>
      if c = 'q' then { a with should_quit := true }
      else if c = 'd' then { a with show_detail := !a.show_detail }
      else if c = ':' then { a with mode := .query, cursor_position := a.query.length }
      else if c = '?' then { a with mode := .help }
      else if c = 't' then init_tree_view ext { a with mode := .treeView }
      else if c = 'j' then normal_move_down a
      else if c = 'k' then normal_move_up a
      else if c = 'l' then
        if mods = KeyModifier.control then
          exec_query ext { a with query := [], cursor_position := 0 }
        else a
      else if c = 'y' then normal_copy_results ext a
      else a
    | .esc => { a with should_quit := true }
    | .f n => if n = 1 then { a with mode := .help } else a
    | .down => normal_move_down a
    | .up => normal_move_up a
    | .pageDown =>
      if !a.results.isEmpty then
        { a with selected_idx := min (a.selected_idx + 10) (a.results.length - 1) }
      else a
    | .pageUp =>
      if !a.results.isEmpty then { a with selected_idx := a.selected_idx - 10 }
      else a
    | .home => if !a.results.isEmpty then { a with selected_idx := 0 } else a
    | .endKey =>
      if !a.results.isEmpty then { a with selected_idx := a.results.length - 1 }
      else a
    | _ => a

/-- `App::handle_query_mode_event` (src/app.rs:213-314). -/
def handle_query_mode_event (ext : Ext) (a : App) (e : TermEvent) : App :=
  match e with
  | .other => a
  | .key code mods =>
    match code with
    | .esc => { a with mode := .normal, history_position := none }
    | .enter =>
      let a1 := { a with mode := Mode.normal }
      let a2 :=
        if !a1.query.isEmpty then
          -- Add query to history if it's not a duplicate
          if a1.query_history.isEmpty ∨ a1.query_history.getLast? ≠ some a1.query then
            { a1 with query_history := a1.query_history ++ [a1.query] }
          else a1
        else a1
      exec_query ext { a2 with history_position := none }
    | .char c =>
      if mods = KeyModifier.none ∨ mods = KeyModifier.shift then
        exec_query ext
          { a with
            query := insert_at a.query a.cursor_position c
            cursor_position := a.cursor_position + 1 }
      else a
    | .backspace =>
      if a.cursor_position > 0 then
        exec_query ext
          { a with
            query := remove_at a.query (a.cursor_position - 1)
            cursor_position := a.cursor_position - 1 }
      else a
    | .delete =>
      if a.cursor_position < a.query.length then
        exec_query ext { a with query := remove_at a.query a.cursor_position }
      else a
    | .left =>
      if a.cursor_position > 0 then { a with cursor_position := a.cursor_position - 1 }
      else a
    | .right =>
      if a.cursor_position < a.query.length then
        { a with cursor_position := a.cursor_position + 1 }
      else a
    | .home => { a with cursor_position := 0 }
    | .endKey => { a with cursor_position := a.query.length }
    | .up =>
      if !a.query_history.isEmpty then
        let a' :=
          match a.history_position with
          | Option.none =>
            { a with
              history_position := some (a.query_history.length - 1)
              query := a.query_history.getD (a.query_history.length - 1) [] }
          | some pos =>
            if pos > 0 then
              { a with
                history_position := some (pos - 1)
                query := a.query_history.getD (pos - 1) [] }
            else a
        { a' with cursor_position := a'.query.length }
      else a
    | .down =>
      match a.history_position with
      | some pos =>
        let a' :=
          if pos < a.query_history.length - 1 then
            { a with
              history_position := some (pos + 1)
              query := a.query_history.getD (pos + 1) [] }
          else { a with history_position := none, query := [] }
        { a' with cursor_position := a'.query.length }
      | Option.none => a
    | _ => a

/-- `App::handle_help_mode_event` (src/app.rs:316-322): any key exits. -/
def handle_help_mode_event (a : App) (e : TermEvent) : App :=
  match e with
  | .key _ _ => { a with mode := .normal }
  | .other => a

/-- `App::handle_tree_view_mode_event` (src/app.rs:324-364). -/
def handle_tree_view_mode_event (a : App) (e : TermEvent) : App :=
  match e with
  | .other => a
  | .key code _ =>
    match code with
    | .esc => { a with mode := .normal }
    | .char c =>
      if c = 't' then { a with mode := .normal }
      else if c = 'q' then { a with should_quit := true }
      else if c = 'j' then { a with tree_view := a.tree_view.map TreeView.move_down }
      else if c = 'k' then { a with tree_view := a.tree_view.map TreeView.move_up }
      else if c = ' ' then { a with tree_view := a.tree_view.map TreeView.toggle_expand }
      else if c = '?' then { a with mode := .help }
      else a
    | .down => { a with tree_view := a.tree_view.map TreeView.move_down }
    | .up => { a with tree_view := a.tree_view.map TreeView.move_up }
    | .enter => { a with tree_view := a.tree_view.map TreeView.toggle_expand }
    | .f n => if n = 1 then { a with mode := .help } else a
    | _ => a

/-- `App::handle_event` (src/app.rs:112-120): clear the transient error,
then dispatch on the current mode. -/
def handle_event (ext : Ext) (a : App) (e : TermEvent) : App :=
  let a0 := { a with error_msg := none }
  match a0.mode with
  | .normal => handle_normal_mode_event ext a0 e
  | .query => handle_query_mode_event ext a0 e
  | .help => handle_help_mode_event a0 e
  | .treeView => handle_tree_view_mode_event a0 e

/-- Fold a list of events through `handle_event`. -/
def run_events (ext : Ext) (a : App) : List TermEvent → App
  | [] => a
  | e :: es => run_events ext (handle_event ext a e) es

/-- Apply the same event `n` times. -/
def iterate_event (ext : Ext) (e : TermEvent) : Nat → App → App
  | 0, a => a
  | n + 1, a => iterate_event ext e n (handle_event ext a e)

/-- `true` exactly for Enter key events (any modifiers), the only trigger
of a history commit. -/
def is_enter_key : TermEvent → Bool
  | .key .enter _ => true
  | _ => false

/-- The selection invariant of spec §3: in-bounds selection on non-empty
results, selection pinned to 0 on empty results. -/
def sel_invariant (a : App) : Prop :=
  (a.results ≠ [] → a.selected_idx < a.results.length) ∧
    (a.results = [] → a.selected_idx = 0)






theorem build_items_eq_cons (m : ExpMap) (n : MdNode) (rest : List MdNode) (d i : Nat) :
    build_items m (n :: rest) d i =
      if m i && !(get_children n).isEmpty then
        mk_item n d i (m i) ::
          (build_items m (get_children n) (d + 1) (i + 1) ++
            build_items m rest d
              (i + 1 + (build_items m (get_children n) (d + 1) (i + 1)).length))
      else
        mk_item n d i (m i) :: build_items m rest d (i + 1) := by
  rw [build_items]

/-- Each row's `index` is its position in the produced list, offset by the
starting counter: the build assigns consecutive identities. -/
theorem build_items_map_index (m : ExpMap) (l : List MdNode) (d i : Nat) :
    (build_items m l d i).map TreeItem.index = List.range' i (build_items m l d i).length := by
  induction l, d, i using build_items.induct m with
  | case1 d i => simp [build_items]
  | case2 n rest d i hcond ih1 ih2 =>
    rw [build_items_eq_cons, if_pos hcond]
    simp only [List.map_cons, List.map_append, List.length_cons, List.length_append, mk_item,
      ih1, ih2]
    rw [List.range'_succ]
    have h := List.range'_append (i + 1) (build_items m (get_children n) (d + 1) (i + 1)).length
      (build_items m rest d (i + 1 + (build_items m (get_children n) (d + 1) (i + 1)).length)).length 1
    simp only [one_mul] at h
    rw [h]
    congr 1
    congr 1
    omega
  | case3 n rest d i hcond ih =>
    rw [build_items_eq_cons, if_neg hcond]
    simp only [List.map_cons, List.length_cons, mk_item, ih]
    rw [List.range'_succ]

theorem build_items_congr (m m' : ExpMap) (l : List MdNode) (d i : Nat)
    (h : ∀ j, i ≤ j → m j = m' j) :
    build_items m' l d i = build_items m l d i := by
  revert h
  induction l, d, i using build_items.induct m with
  | case1 d i => intro h; simp [build_items]
  | case2 n rest d i hcond ih1 ih2 =>
    intro h
    have hmi : m' i = m i := (h i le_rfl).symm
    rw [build_items_eq_cons m', build_items_eq_cons m, hmi, if_pos hcond, if_pos hcond]
    have hsub : build_items m' (get_children n) (d + 1) (i + 1)
        = build_items m (get_children n) (d + 1) (i + 1) :=
      ih1 (fun j hj => h j (by omega))
    rw [hsub]
    have hrest : build_items m' rest d
        (i + 1 + (build_items m (get_children n) (d + 1) (i + 1)).length)
        = build_items m rest d
        (i + 1 + (build_items m (get_children n) (d + 1) (i + 1)).length) :=
      ih2 (fun j hj => h j (by omega))
    rw [hrest]
  | case3 n rest d i hcond ih =>
    intro h
    have hmi : m' i = m i := (h i le_rfl).symm
    rw [build_items_eq_cons m', build_items_eq_cons m, hmi, if_neg hcond, if_neg hcond,
      ih (fun j hj => h j (by omega))]

theorem build_items_length_all_false (m : ExpMap) (l : List MdNode) (d i : Nat)
    (h : ∀ j, i ≤ j → m j = false) :
    (build_items m l d i).length = l.length := by
  induction l generalizing i with
  | nil => simp [build_items]
  | cons n rest ih =>
    have hmi : m i = false := h i le_rfl
    rw [build_items_eq_cons, hmi]
    simp only [Bool.false_and, Bool.false_eq_true, if_false, List.length_cons]
    rw [ih (i + 1) (fun j hj => h j (by omega))]

theorem build_items_congr_below (m m' : ExpMap) (k : Nat) (l : List MdNode) (d i : Nat)
    (hag : ∀ j, i ≤ j → j < k → m j = m' j)
    (hend : i + (build_items m l d i).length ≤ k) :
    build_items m' l d i = build_items m l d i := by
  revert hag hend
  induction l, d, i using build_items.induct m with
  | case1 d i => intro _ _; simp [build_items]
  | case2 n rest d i hcond ih1 ih2 =>
    intro hag hend
    rw [build_items_eq_cons m] at hend
    rw [if_pos hcond] at hend
    simp only [List.length_cons, List.length_append] at hend
    have hmi : m' i = m i := (hag i le_rfl (by omega)).symm
    rw [build_items_eq_cons m', build_items_eq_cons m, hmi, if_pos hcond, if_pos hcond]
    have hsub : build_items m' (get_children n) (d + 1) (i + 1)
        = build_items m (get_children n) (d + 1) (i + 1) :=
      ih1 (fun j hj1 hj2 => hag j (by omega) hj2) (by omega)
    rw [hsub]
    have hrest : build_items m' rest d
        (i + 1 + (build_items m (get_children n) (d + 1) (i + 1)).length)
        = build_items m rest d
        (i + 1 + (build_items m (get_children n) (d + 1) (i + 1)).length) :=
      ih2 (fun j hj1 hj2 => hag j (by omega) hj2) (by omega)
    rw [hrest]
  | case3 n rest d i hcond ih =>
    intro hag hend
    rw [build_items_eq_cons m] at hend
    rw [if_neg hcond] at hend
    simp only [List.length_cons] at hend
    have hmi : m' i = m i := (hag i le_rfl (by omega)).symm
    rw [build_items_eq_cons m', build_items_eq_cons m, hmi, if_neg hcond, if_neg hcond,
      ih (fun j hj1 hj2 => hag j (by omega) hj2) (by omega)]

theorem mem_build_items (m : ExpMap) (l : List MdNode) (d i : Nat) :
    ∀ it ∈ build_items m l d i,
      it.is_expanded = m it.index ∧ it.has_children = has_children it.node ∧ i ≤ it.index := by
  induction l, d, i using build_items.induct m with
  | case1 d i => simp [build_items]
  | case2 n rest d i hcond ih1 ih2 =>
    intro it hit
    rw [build_items_eq_cons m, if_pos hcond] at hit
    rcases List.mem_cons.mp hit with h | h
    · subst h; simp [mk_item]
    · rcases List.mem_append.mp h with h' | h'
      · have := ih1 it h'; exact ⟨this.1, this.2.1, by omega⟩
      · have := ih2 it h'; exact ⟨this.1, this.2.1, by omega⟩
  | case3 n rest d i hcond ih =>
    intro it hit
    rw [build_items_eq_cons m, if_neg hcond] at hit
    rcases List.mem_cons.mp hit with h | h
    · subst h; simp [mk_item]
    · have := ih it h; exact ⟨this.1, this.2.1, by omega⟩



theorem ExpMap.insert_self (m : ExpMap) (k : Nat) (b : Bool) : (m.insert k b) k = b := by
  simp [ExpMap.insert]

theorem ExpMap.insert_ne (m : ExpMap) (k : Nat) (b : Bool) (j : Nat) (h : j ≠ k) :
    (m.insert k b) j = m j := by
  simp [ExpMap.insert, h]

theorem build_items_insert_true (m : ExpMap) (k : Nat)
    (hk_above : ∀ j, k < j → m j = false) (hk : m k = false) (l : List MdNode) (d i : Nat) :
    i ≤ k →
    ∀ it, (build_items m l d i)[k - i]? = some it →
      (build_items (m.insert k true) l d i).length
          = (build_items m l d i).length + (get_children it.node).length
      ∧ (build_items (m.insert k true) l d i)[k - i]? = some { it with is_expanded := true } := by
  induction l, d, i using build_items.induct m with
  | case1 d i =>
    intro hik it hget
    simp [build_items] at hget
  | case2 n rest d i hcond ih1 ih2 =>
    intro hik it hget
    have hmi : m i = true := (Bool.and_eq_true_iff.mp hcond).1
    have hik' : i < k := by
      rcases Nat.lt_or_ge i k with h | h
      · exact h
      · exfalso; have : i = k := by omega
        rw [this, hk] at hmi; exact Bool.false_ne_true hmi
    have hmi' : (m.insert k true) i = m i := ExpMap.insert_ne m k true i (by omega)
    obtain ⟨p, hp⟩ : ∃ p, k - i = p + 1 := ⟨k - i - 1, by omega⟩
    rw [build_items_eq_cons m, if_pos hcond, hp, List.getElem?_cons_succ] at hget
    rw [build_items_eq_cons m, if_pos hcond]
    rw [build_items_eq_cons (m.insert k true), hmi', if_pos hcond]
    by_cases hpos : p < (build_items m (get_children n) (d + 1) (i + 1)).length
    · -- the target row lies inside the child subtree of the head node
      rw [List.getElem?_append, if_pos hpos] at hget
      have hkp : k - (i + 1) = p := by omega
      obtain ⟨ihlen, ihget⟩ := ih1 (by omega) it (by rw [hkp]; exact hget)
      have hrest' : ∀ s, k < s →
          (build_items (m.insert k true) rest d s).length = rest.length := by
        intro s hs
        apply build_items_length_all_false
        intro j hj
        rw [ExpMap.insert_ne m k true j (by omega)]
        exact hk_above j (by omega)
      have hrest : (build_items m rest d
          (i + 1 + (build_items m (get_children n) (d + 1) (i + 1)).length)).length
          = rest.length := by
        apply build_items_length_all_false
        intro j hj
        exact hk_above j (by omega)
      constructor
      · simp only [List.length_cons, List.length_append, ihlen, hrest]
        rw [hrest' _ (by omega)]
        omega
      · rw [hp, List.getElem?_cons_succ, List.getElem?_append,
          if_pos (by rw [ihlen]; omega)]
        rw [hkp] at ihget
        exact ihget
    · -- the target row lies after the child subtree of the head node
      rw [List.getElem?_append, if_neg hpos] at hget
      have hsub : build_items (m.insert k true) (get_children n) (d + 1) (i + 1)
          = build_items m (get_children n) (d + 1) (i + 1) := by
        apply build_items_congr_below m (m.insert k true) k
        · intro j hj1 hj2
          exact (ExpMap.insert_ne m k true j (by omega)).symm
        · omega
      rw [hsub]
      have hkr : k - (i + 1 + (build_items m (get_children n) (d + 1) (i + 1)).length)
          = p - (build_items m (get_children n) (d + 1) (i + 1)).length := by omega
      obtain ⟨ihlen, ihget⟩ := ih2 (by omega) it (by rw [hkr]; exact hget)
      constructor
      · simp only [List.length_cons, List.length_append, ihlen]
        omega
      · rw [hp, List.getElem?_cons_succ, List.getElem?_append, if_neg (by omega), ← hkr]
        exact ihget
  | case3 n rest d i hcond ih =>
    intro hik it hget
    by_cases hik_eq : k = i
    · -- the head row is the toggled row itself
      subst hik_eq
      rw [build_items_eq_cons m, if_neg hcond, Nat.sub_self, List.getElem?_cons_zero] at hget
      have hit : it = mk_item n d k (m k) := by
        injection hget with h; exact h.symm
      rw [build_items_eq_cons m, if_neg hcond]
      rw [build_items_eq_cons (m.insert k true), ExpMap.insert_self]
      by_cases hcs : (get_children n).isEmpty
      · -- the toggled node has no stored children: expanding changes nothing structural
        rw [List.isEmpty_iff] at hcs
        simp only [hcs, List.isEmpty_nil, Bool.not_true, Bool.and_false, Bool.false_eq_true,
          if_false]
        have hrest : build_items (m.insert k true) rest d (k + 1)
            = build_items m rest d (k + 1) := by
          apply build_items_congr
          intro j hj
          exact (ExpMap.insert_ne m k true j (by omega)).symm
        rw [hrest]
        constructor
        · rw [hit]
          simp [mk_item, hcs]
        · rw [Nat.sub_self, List.getElem?_cons_zero, hit, hk]
          rfl
      · -- the toggled node has children: they appear, everything after stays collapsed
        have hcs' : !(get_children n).isEmpty := by
          simp [Bool.not_eq_true'] at hcs ⊢
          exact hcs
        simp only [Bool.true_and, hcs', if_true]
        have hall : ∀ j, k + 1 ≤ j → (m.insert k true) j = false := by
          intro j hj
          rw [ExpMap.insert_ne m k true j (by omega)]
          exact hk_above j (by omega)
        have hsub : (build_items (m.insert k true) (get_children n) (d + 1) (k + 1)).length
            = (get_children n).length :=
          build_items_length_all_false _ _ _ _ hall
        have hrest' : ∀ s, k < s →
            (build_items (m.insert k true) rest d s).length = rest.length := by
          intro s hs
          apply build_items_length_all_false
          intro j hj
          exact hall j (by omega)
        have hrest : (build_items m rest d (k + 1)).length = rest.length := by
          apply build_items_length_all_false
          intro j hj
          exact hk_above j (by omega)
        constructor
        · simp only [List.length_cons, List.length_append, hsub, hrest, hit, mk_item]
          rw [hrest' _ (by omega)]
          omega
        · rw [Nat.sub_self, List.getElem?_cons_zero, hit, hk]
          rfl
    · -- the toggled row lies strictly after the head row
      have hik' : i < k := by omega
      have hmi' : (m.insert k true) i = m i := ExpMap.insert_ne m k true i (by omega)
      obtain ⟨p, hp⟩ : ∃ p, k - i = p + 1 := ⟨k - i - 1, by omega⟩
      rw [build_items_eq_cons m, if_neg hcond, hp, List.getElem?_cons_succ] at hget
      rw [build_items_eq_cons m, if_neg hcond]
      rw [build_items_eq_cons (m.insert k true), hmi', if_neg hcond]
      have hkp : k - (i + 1) = p := by omega
      obtain ⟨ihlen, ihget⟩ := ih (by omega) it (by rw [hkp]; exact hget)
      constructor
      · simp only [List.length_cons, ihlen]
        omega
      · rw [hp, List.getElem?_cons_succ]
        rw [hkp] at ihget
        exact ihget



theorem has_children_iff_get_children_ne_nil (n : MdNode) :
    has_children n = true ↔ get_children n ≠ [] := by
  cases n <;> simp [has_children, get_children]

/-- C6 (amended): for every root forest and every expansion set, the
identity assigned to each node by a rebuild is its pre-order position in
the traversal the rebuild actually performs — the one restricted to the
current expansion set, in which a collapsed node's hidden descendants
consume no identities.  Equivalently, each row's identity equals its row
position. -/
theorem rebuild_identity_is_visible_preorder_position (m : ExpMap) (nodes : List MdNode) :
    (build_items m nodes 0 0).map TreeItem.index
      = List.range (build_items m nodes 0 0).length := by
  rw [List.range_eq_range']
  exact build_items_map_index m nodes 0 0

/-- C6 counterexample: for the two-node forest `[blockquote [text "x"],
text "y"]` with nothing expanded, the rebuild of the code assigns the
trailing text node identity 1, while the spec's fully-expanded-traversal
assignment gives it pre-order position 2 — so rebuild identities are not
fully-expanded pre-order positions. -/
theorem rebuild_identity_not_fully_expanded_position :
    (build_items (fun _ => false)
        [MdNode.blockquote [MdNode.text "x"], MdNode.text "y"] 0 0).map TreeItem.index
      ≠ (spec_build_items (fun _ => false)
        [MdNode.blockquote [MdNode.text "x"], MdNode.text "y"] 0 0).map TreeItem.index := by
  have h1 : (build_items (fun _ => false)
      [MdNode.blockquote [MdNode.text "x"], MdNode.text "y"] 0 0).map TreeItem.index
      = [0, 1] := by
    simp [build_items, get_children, mk_item]
  have h2 : (spec_build_items (fun _ => false)
      [MdNode.blockquote [MdNode.text "x"], MdNode.text "y"] 0 0).map TreeItem.index
      = [0, 2] := by
    simp [spec_build_items, get_children, mk_item, full_count_list]
  rw [h1, h2]
  simp


/-- Rows produced by a build carry the expansion flag and child bit of
their own node and identity. -/
theorem getElem_build_items_flags (m : ExpMap) (l : List MdNode) (d i p : Nat)
    (it : TreeItem) (h : (build_items m l d i)[p]? = some it) :
    it.is_expanded = m it.index ∧ it.has_children = has_children it.node := by
  have hmem : it ∈ build_items m l d i := by
    obtain ⟨hp, hget⟩ := List.getElem?_eq_some.mp h
    exact hget ▸ List.getElem_mem hp
  have := mem_build_items m l d i it hmem
  exact ⟨this.1, this.2.1⟩

/-- The selected row's identity equals the selection index whenever the
row list is a rebuild from counter 0. -/
theorem selected_index_eq_identity (m : ExpMap) (l : List MdNode) (s : Nat)
    (it : TreeItem) (h : (build_items m l 0 0)[s]? = some it) :
    it.index = s := by
  have hs : s < (build_items m l 0 0).length := (List.getElem?_eq_some.mp h).1
  have hmap := build_items_map_index m l 0 0
  have h1 : ((build_items m l 0 0).map TreeItem.index)[s]? = some it.index := by
    rw [List.getElem?_map, h]
    rfl
  rw [hmap, List.getElem?_range' 0 1 hs] at h1
  injection h1 with h1
  omega

/-- C7 (amended): in a tree view whose rows are the rebuild of its
expansion map and whose expansion map holds no entry above the selected
row's identity, `toggle_expand` on a collapsed selected row with children
strictly increases `length(rows)` by exactly the row count of that node's
child subtree as visible under the new expansion set (here: its direct
children, everything deeper staying collapsed), and an immediate second
`toggle_expand` decreases `length(rows)` by the same amount, restoring the
original row count. -/
theorem toggle_expand_expands_then_collapses (tv : TreeView) (it : TreeItem)
    (hwf : tv.items = build_items tv.expanded_items tv.original_nodes 0 0)
    (hit : tv.items[tv.selected_index]? = some it)
    (hhc : it.has_children = true)
    (hcol : it.is_expanded = false)
    (habove : ∀ j, it.index < j → tv.expanded_items j = false) :
    tv.toggle_expand.items.length = tv.items.length + (get_children it.node).length
      ∧ 0 < (get_children it.node).length
      ∧ tv.toggle_expand.toggle_expand.items.length = tv.items.length := by
  obtain ⟨hexp, hch⟩ := getElem_build_items_flags tv.expanded_items tv.original_nodes 0 0
    tv.selected_index it (hwf ▸ hit)
  have hks : it.index = tv.selected_index :=
    selected_index_eq_identity tv.expanded_items tv.original_nodes tv.selected_index it
      (hwf ▸ hit)
  have hk : tv.expanded_items it.index = false := by rw [← hexp]; exact hcol
  have hcne : get_children it.node ≠ [] := by
    rw [← has_children_iff_get_children_ne_nil, ← hch]; exact hhc
  have hcpos : 0 < (get_children it.node).length := List.length_pos.mpr hcne
  have hs : tv.selected_index < tv.items.length := (List.getElem?_eq_some.mp hit).1
  obtain ⟨hlen1, hget1⟩ := build_items_insert_true tv.expanded_items it.index habove hk
    tv.original_nodes 0 0 (Nat.zero_le _) it
    (by rw [Nat.sub_zero, hks, ← hwf]; exact hit)
  -- first toggle: the selected row is collapsed with children, so the map
  -- gains a `true` entry at its identity and the rows are rebuilt
  have htog1 : tv.toggle_expand =
      { tv with
        expanded_items := tv.expanded_items.insert it.index true
        items := build_items (tv.expanded_items.insert it.index true) tv.original_nodes 0 0
        selected_index := min tv.selected_index
          ((build_items (tv.expanded_items.insert it.index true)
            tv.original_nodes 0 0).length - 1) } := by
    simp only [TreeView.toggle_expand, hit, hhc, hcol, if_true, Bool.not_false]
  have hL : tv.items.length = (build_items tv.expanded_items tv.original_nodes 0 0).length := by
    rw [hwf]
  refine ⟨?_, hcpos, ?_⟩
  · rw [htog1]
    simp only []
    rw [hlen1, hL]
  · -- second toggle: the selected row is unchanged (indices below the
    -- expansion point are stable) but now expanded, and re-inserting
    -- `false` restores the original map pointwise, hence the original rows
    have hlen' : (build_items (tv.expanded_items.insert it.index true)
        tv.original_nodes 0 0).length
        = tv.items.length + (get_children it.node).length := by
      rw [hlen1, hL]
    have hselmin : min tv.selected_index
        ((build_items (tv.expanded_items.insert it.index true)
          tv.original_nodes 0 0).length - 1) = tv.selected_index := by
      rw [hlen']
      omega
    have hget1' : (build_items (tv.expanded_items.insert it.index true)
        tv.original_nodes 0 0)[tv.selected_index]?
        = some { it with is_expanded := true } := by
      rw [← hks, ← Nat.sub_zero it.index]
      exact hget1
    have hmback : (tv.expanded_items.insert it.index true).insert it.index false
        = tv.expanded_items := by
      funext j
      by_cases hj : j = it.index
      · subst hj
        rw [ExpMap.insert_self, ← hk]
      · rw [ExpMap.insert_ne _ _ _ _ hj, ExpMap.insert_ne _ _ _ _ hj]
    rw [htog1]
    rw [TreeView.toggle_expand]
    simp only [hselmin, hget1']
    rw [if_pos (by simpa using hhc)]
    simp only [Bool.not_true, hmback]
    rw [← hwf]


/-- Witness for C7's theorem: a freshly built single-blockquote tree.
Expanding adds exactly the one child row; collapsing removes it again. -/
theorem toggle_expand_expands_then_collapses_witness :
    (TreeView.new [MdNode.blockquote [MdNode.text "x"]]).toggle_expand.items.length
        = (TreeView.new [MdNode.blockquote [MdNode.text "x"]]).items.length
          + (get_children (MdNode.blockquote [MdNode.text "x"])).length
      ∧ 0 < (get_children (MdNode.blockquote [MdNode.text "x"])).length
      ∧ (TreeView.new
            [MdNode.blockquote [MdNode.text "x"]]).toggle_expand.toggle_expand.items.length
        = (TreeView.new [MdNode.blockquote [MdNode.text "x"]]).items.length :=
  toggle_expand_expands_then_collapses _
    (mk_item (MdNode.blockquote [MdNode.text "x"]) 0 0 false)
    rfl
    (by simp [TreeView.new, TreeView.rebuild_items, build_items, get_children, mk_item])
    rfl
    rfl
    (fun j hj => rfl)

/-- C7 counterexample: reach, by tree operations alone, a view whose
expansion map holds a stale entry above the selected row.  Forest:
two blockquotes, each with one text child.  Expand the second (identity 1),
move back to the first — a collapsed row with children.  Toggling it now
rebuilds with the first blockquote's child at identity 1 (absorbing the
stale `true`) and the second blockquote shifted to identity 2 (collapsing
it), so `length(rows)` stays 3 instead of strictly increasing. -/
theorem toggle_expand_counterexample :
    ((((TreeView.new [MdNode.blockquote [MdNode.text "x"],
          MdNode.blockquote [MdNode.text "y"]]).move_down).toggle_expand).move_up).items[
        ((((TreeView.new [MdNode.blockquote [MdNode.text "x"],
          MdNode.blockquote [MdNode.text "y"]]).move_down).toggle_expand).move_up).selected_index]?.map
        TreeItem.has_children = some true
      ∧ ((((TreeView.new [MdNode.blockquote [MdNode.text "x"],
          MdNode.blockquote [MdNode.text "y"]]).move_down).toggle_expand).move_up).items[
        ((((TreeView.new [MdNode.blockquote [MdNode.text "x"],
          MdNode.blockquote [MdNode.text "y"]]).move_down).toggle_expand).move_up).selected_index]?.map
        TreeItem.is_expanded = some false
      ∧ ((((TreeView.new [MdNode.blockquote [MdNode.text "x"],
          MdNode.blockquote [MdNode.text "y"]]).move_down).toggle_expand).move_up).toggle_expand.items.length
        = ((((TreeView.new [MdNode.blockquote [MdNode.text "x"],
          MdNode.blockquote [MdNode.text "y"]]).move_down).toggle_expand).move_up).items.length := by
  simp [TreeView.new, TreeView.rebuild_items, TreeView.move_down, TreeView.move_up,
    TreeView.toggle_expand, build_items, get_children, mk_item, has_children, ExpMap.insert]


theorem clamp_selected_results (a : App) : (clamp_selected a).results = a.results := by
  unfold clamp_selected
  split <;> rfl

theorem clamp_selected_error_msg (a : App) : (clamp_selected a).error_msg = a.error_msg := by
  unfold clamp_selected
  split <;> rfl

theorem not_isEmpty_of_ne_nil {α : Type} {l : List α} (h : l ≠ []) : (!l.isEmpty) = true := by
  simp [List.isEmpty_iff, h]

/-- C1: when the document parses and the query engine fails on a non-empty
query, re-evaluation reports a diagnostic and leaves `results` exactly as
they were. -/
theorem exec_query_engine_failure_keeps_results (ext : Ext) (a : App)
    (nodes : List MdNode) (err : String)
    (hq : a.query ≠ [])
    (hp : ext.parse a.content = .ok nodes)
    (he : ext.evaluate a.query (nodes.map RVal.markdown) = .error err) :
    (exec_query ext a).results = a.results
      ∧ (exec_query ext a).error_msg = some ("Query error: " ++ err) := by
  unfold exec_query
  rw [hp]
  dsimp only
  rw [if_pos (not_isEmpty_of_ne_nil hq), he]
  exact ⟨clamp_selected_results _, clamp_selected_error_msg _⟩

/-- Witness for C1 at a concrete session: query `"x"`, one stale result,
a parser that succeeds and an engine that fails. -/
theorem exec_query_engine_failure_keeps_results_witness :
    ({ App.new "doc" with query := ['x'], results := [MdNode.text "r"] } : App).query ≠ []
      ∧ (exec_query
            { parse := fun _ => .ok [MdNode.text "n"]
              evaluate := fun _ _ => .error "boom"
              clipboard_new := true
              clipboard_set := true }
            { App.new "doc" with query := ['x'], results := [MdNode.text "r"] }).results
        = ({ App.new "doc" with query := ['x'], results := [MdNode.text "r"] } : App).results
      ∧ (exec_query
            { parse := fun _ => .ok [MdNode.text "n"]
              evaluate := fun _ _ => .error "boom"
              clipboard_new := true
              clipboard_set := true }
            { App.new "doc" with query := ['x'], results := [MdNode.text "r"] }).error_msg
        = some ("Query error: " ++ "boom") :=
  ⟨by decide,
    (exec_query_engine_failure_keeps_results _ _ [MdNode.text "n"] "boom"
      (by decide) rfl rfl).1,
    (exec_query_engine_failure_keeps_results _ _ [MdNode.text "n"] "boom"
      (by decide) rfl rfl).2⟩

/-- C2: with an empty query and a successfully parsed document,
re-evaluation passes the full top-level node sequence through unfiltered
and leaves no error. -/
theorem exec_query_empty_query_pass_through (ext : Ext) (a : App)
    (nodes : List MdNode)
    (hq : a.query = [])
    (hp : ext.parse a.content = .ok nodes) :
    (exec_query ext a).results = nodes ∧ (exec_query ext a).error_msg = none := by
  unfold exec_query
  rw [hp]
  dsimp only
  rw [if_neg (by rw [hq]; simp)]
  exact ⟨clamp_selected_results _, clamp_selected_error_msg _⟩

/-- Witness for C2: empty query over a two-node document. -/
theorem exec_query_empty_query_pass_through_witness :
    ({ App.new "doc" with results := [MdNode.text "stale"] } : App).query = []
      ∧ (exec_query
            { parse := fun _ => .ok [MdNode.text "n1", MdNode.lineBreak]
              evaluate := fun _ _ => .error "never"
              clipboard_new := true
              clipboard_set := true }
            { App.new "doc" with results := [MdNode.text "stale"] }).results
        = [MdNode.text "n1", MdNode.lineBreak]
      ∧ (exec_query
            { parse := fun _ => .ok [MdNode.text "n1", MdNode.lineBreak]
              evaluate := fun _ _ => .error "never"
              clipboard_new := true
              clipboard_set := true }
            { App.new "doc" with results := [MdNode.text "stale"] }).error_msg = none :=
  ⟨rfl,
    (exec_query_empty_query_pass_through _ _ [MdNode.text "n1", MdNode.lineBreak] rfl rfl).1,
    (exec_query_empty_query_pass_through _ _ [MdNode.text "n1", MdNode.lineBreak] rfl rfl).2⟩

/-- C3: when the document parse fails, re-evaluation sets the error and
clears `results`, whatever the query text is. -/
theorem exec_query_parse_failure_clears_results (ext : Ext) (a : App) (err : String)
    (hp : ext.parse a.content = .error err) :
    (exec_query ext a).results = []
      ∧ (exec_query ext a).error_msg = some ("Markdown parse error: " ++ err) := by
  unfold exec_query
  rw [hp]
  exact ⟨clamp_selected_results _, clamp_selected_error_msg _⟩

/-- Witness for C3: a failing parser with a non-empty query and stale
results. -/
theorem exec_query_parse_failure_clears_results_witness :
    (exec_query
        { parse := fun _ => .error "bad doc"
          evaluate := fun _ _ => .ok []
          clipboard_new := true
          clipboard_set := true }
        { App.new "doc" with query := ['x'], results := [MdNode.text "r"] }).results = []
      ∧ (exec_query
          { parse := fun _ => .error "bad doc"
            evaluate := fun _ _ => .ok []
            clipboard_new := true
            clipboard_set := true }
          { App.new "doc" with query := ['x'], results := [MdNode.text "r"] }).error_msg
        = some ("Markdown parse error: " ++ "bad doc") :=
  ⟨(exec_query_parse_failure_clears_results _ _ "bad doc" rfl).1,
    (exec_query_parse_failure_clears_results _ _ "bad doc" rfl).2⟩


theorem sel_invariant_of_eq {a b : App} (hres : b.results = a.results)
    (hsel : b.selected_idx = a.selected_idx) (h : sel_invariant a) : sel_invariant b := by
  unfold sel_invariant at *
  rw [hres, hsel]
  exact h

theorem results_length_pos_of_not_isEmpty {a : App} (h : (!a.results.isEmpty) = true) :
    0 < a.results.length := by
  simp [List.isEmpty_iff] at h
  exact List.length_pos.mpr h

/-- The clamp at the end of `exec_query` establishes the selection
invariant from any prior state. -/
theorem clamp_selected_sel_invariant (a : App) : sel_invariant (clamp_selected a) := by
  unfold clamp_selected
  split
  · next hge =>
    constructor
    · intro hne
      have hne' : ¬a.results.isEmpty = true := by
        simpa [List.isEmpty_iff] using hne
      show (if a.results.isEmpty then 0 else a.results.length - 1) < a.results.length
      rw [if_neg hne']
      have : a.results ≠ [] := by
        intro hcon
        exact hne (by exact hcon)
      have := List.length_pos.mpr this
      omega
    · intro he
      have he' : a.results = [] := he
      show (if a.results.isEmpty then 0 else a.results.length - 1) = 0
      rw [if_pos (by simp [he'])]
  · next hlt =>
    constructor
    · intro _
      omega
    · intro he
      have he' : a.results = [] := he
      rw [he'] at hlt
      simp at hlt

/-- Re-evaluation always restores the selection invariant (the clamp runs
after every outcome). -/
theorem exec_query_sel_invariant (ext : Ext) (a : App) :
    sel_invariant (exec_query ext a) := by
  unfold exec_query
  exact clamp_selected_sel_invariant _

theorem init_tree_view_sel_invariant (ext : Ext) (a : App) (h : sel_invariant a) :
    sel_invariant (init_tree_view ext a) := by
  unfold init_tree_view
  cases ext.parse a.content with
  | ok nodes => exact sel_invariant_of_eq rfl rfl h
  | error err => exact sel_invariant_of_eq rfl rfl h

theorem normal_move_down_sel_invariant (a : App) (h : sel_invariant a) :
    sel_invariant (normal_move_down a) := by
  unfold normal_move_down
  split
  · next hne =>
    have hlen := results_length_pos_of_not_isEmpty hne
    constructor
    · intro _
      show (a.selected_idx + 1) % a.results.length < a.results.length
      exact Nat.mod_lt _ hlen
    · intro he
      exfalso
      have he' : a.results = [] := he
      rw [he'] at hlen
      simp at hlen
  · exact h

theorem normal_move_up_sel_invariant (a : App) (h : sel_invariant a) :
    sel_invariant (normal_move_up a) := by
  unfold normal_move_up
  split
  · next hne =>
    have hlen := results_length_pos_of_not_isEmpty hne
    have hne' : a.results ≠ [] := by simpa [List.isEmpty_iff] using hne
    have hs := h.1 hne'
    constructor
    · intro _
      show (if a.selected_idx > 0 then a.selected_idx - 1 else a.results.length - 1)
          < a.results.length
      split <;> omega
    · intro he
      exfalso
      exact hne' he
  · exact h

theorem normal_copy_results_sel_invariant (ext : Ext) (a : App) (h : sel_invariant a) :
    sel_invariant (normal_copy_results ext a) := by
  unfold normal_copy_results
  split_ifs <;> exact sel_invariant_of_eq rfl rfl h

theorem handle_normal_mode_event_sel_invariant (ext : Ext) (a : App) (e : TermEvent)
    (h : sel_invariant a) : sel_invariant (handle_normal_mode_event ext a e) := by
  unfold handle_normal_mode_event
  cases e with
  | other => exact h
  | key code mods =>
    cases code with
    | char c =>
      dsimp only
      split_ifs
      all_goals first
        | exact sel_invariant_of_eq rfl rfl h
        | exact init_tree_view_sel_invariant ext _ (sel_invariant_of_eq rfl rfl h)
        | exact normal_move_down_sel_invariant _ h
        | exact normal_move_up_sel_invariant _ h
        | exact exec_query_sel_invariant ext _
        | exact normal_copy_results_sel_invariant ext _ h
    | esc => exact sel_invariant_of_eq rfl rfl h
    | f n =>
      dsimp only
      split_ifs
      · exact sel_invariant_of_eq rfl rfl h
      · exact h
    | down => exact normal_move_down_sel_invariant _ h
    | up => exact normal_move_up_sel_invariant _ h
    | pageDown =>
      dsimp only
      split
      · next hne =>
        have hlen := results_length_pos_of_not_isEmpty hne
        constructor
        · intro _
          show min (a.selected_idx + 10) (a.results.length - 1) < a.results.length
          omega
        · intro he
          exfalso
          have he' : a.results = [] := he
          rw [he'] at hlen
          simp at hlen
      · exact h
    | pageUp =>
      dsimp only
      split
      · next hne =>
        have hne' : a.results ≠ [] := by simpa [List.isEmpty_iff] using hne
        have hs := h.1 hne'
        constructor
        · intro _
          show a.selected_idx - 10 < a.results.length
          omega
        · intro he
          exfalso
          exact hne' he
      · exact h
    | home =>
      dsimp only
      split
      · next hne =>
        have hlen := results_length_pos_of_not_isEmpty hne
        constructor
        · intro _
          show 0 < a.results.length
          exact hlen
        · intro he
          exfalso
          have he' : a.results = [] := he
          rw [he'] at hlen
          simp at hlen
      · exact h
    | endKey =>
      dsimp only
      split
      · next hne =>
        have hlen := results_length_pos_of_not_isEmpty hne
        constructor
        · intro _
          show a.results.length - 1 < a.results.length
          omega
        · intro he
          exfalso
          have he' : a.results = [] := he
          rw [he'] at hlen
          simp at hlen
      · exact h
    | backspace => exact h
    | enter => exact h
    | left => exact h
    | right => exact h
    | delete => exact h

theorem handle_query_mode_event_sel_invariant (ext : Ext) (a : App) (e : TermEvent)
    (h : sel_invariant a) : sel_invariant (handle_query_mode_event ext a e) := by
  unfold handle_query_mode_event
  cases e with
  | other => exact h
  | key code mods =>
    cases code with
    | esc => exact sel_invariant_of_eq rfl rfl h
    | enter =>
      dsimp only
      split_ifs <;> exact exec_query_sel_invariant ext _
    | char c =>
      dsimp only
      split_ifs
      · exact exec_query_sel_invariant ext _
      · exact h
    | backspace =>
      dsimp only
      split
      · exact exec_query_sel_invariant ext _
      · exact h
    | delete =>
      dsimp only
      split
      · exact exec_query_sel_invariant ext _
      · exact h
    | left =>
      dsimp only
      split
      · exact sel_invariant_of_eq rfl rfl h
      · exact h
    | right =>
      dsimp only
      split
      · exact sel_invariant_of_eq rfl rfl h
      · exact h
    | home => exact sel_invariant_of_eq rfl rfl h
    | endKey => exact sel_invariant_of_eq rfl rfl h
    | up =>
      dsimp only
      split
      · cases a.history_position with
        | none => exact sel_invariant_of_eq rfl rfl h
        | some pos =>
          dsimp only
          split_ifs <;> exact sel_invariant_of_eq rfl rfl h
      · exact h
    | down =>
      cases a.history_position with
      | none => exact h
      | some pos =>
        dsimp only
        split_ifs <;> exact sel_invariant_of_eq rfl rfl h
    | f n => exact h
    | pageUp => exact h
    | pageDown => exact h

theorem handle_help_mode_event_sel_invariant (a : App) (e : TermEvent)
    (h : sel_invariant a) : sel_invariant (handle_help_mode_event a e) := by
  unfold handle_help_mode_event
  cases e with
  | other => exact h
  | key code mods => exact sel_invariant_of_eq rfl rfl h

theorem handle_tree_view_mode_event_sel_invariant (a : App) (e : TermEvent)
    (h : sel_invariant a) : sel_invariant (handle_tree_view_mode_event a e) := by
  unfold handle_tree_view_mode_event
  cases e with
  | other => exact h
  | key code mods =>
    cases code with
    | char c =>
      dsimp only
      split_ifs <;> exact sel_invariant_of_eq rfl rfl h
    | f n =>
      dsimp only
      split_ifs
      · exact sel_invariant_of_eq rfl rfl h
      · exact h
    | _ => exact sel_invariant_of_eq rfl rfl h

theorem handle_event_sel_invariant (ext : Ext) (a : App) (e : TermEvent)
    (h : sel_invariant a) : sel_invariant (handle_event ext a e) := by
  unfold handle_event
  have h0 : sel_invariant ({ a with error_msg := none } : App) :=
    sel_invariant_of_eq rfl rfl h
  dsimp only
  cases hm : a.mode
  · exact handle_normal_mode_event_sel_invariant ext _ e h0
  · exact handle_query_mode_event_sel_invariant ext _ e h0
  · exact handle_help_mode_event_sel_invariant _ e h0
  · exact handle_tree_view_mode_event_sel_invariant _ e h0

/-- C4: the selection invariant (in-bounds selection on non-empty
`results`, selection 0 on empty `results`) is preserved by every event
dispatch and (unconditionally re-established, via the clamp) by every
re-evaluation. -/
theorem sel_invariant_after_dispatch_and_reeval (ext : Ext) (a : App) (e : TermEvent)
    (h : sel_invariant a) :
    sel_invariant (handle_event ext a e) ∧ sel_invariant (exec_query ext a) :=
  ⟨handle_event_sel_invariant ext a e h, exec_query_sel_invariant ext a⟩

/-- Witness for C4: the freshly created session, a `Down` key event, and a
trivial external world. -/
theorem sel_invariant_after_dispatch_and_reeval_witness :
    sel_invariant (App.new "")
      ∧ sel_invariant (handle_event
          { parse := fun _ => .ok []
            evaluate := fun _ _ => .ok []
            clipboard_new := true
            clipboard_set := true }
          (App.new "") (TermEvent.key KeyCode.down KeyModifier.none))
      ∧ sel_invariant (exec_query
          { parse := fun _ => .ok []
            evaluate := fun _ _ => .ok []
            clipboard_new := true
            clipboard_set := true }
          (App.new "")) := by
  have h : sel_invariant (App.new "") := ⟨fun hne => absurd rfl hne, fun _ => rfl⟩
  exact ⟨h, sel_invariant_after_dispatch_and_reeval _ _ _ h⟩


/-- One `Down` dispatch in Normal mode on non-empty results: clear the
error and advance the selection by one with wraparound. -/
theorem handle_event_down_normal (ext : Ext) (a : App)
    (hm : a.mode = Mode.normal) (hne : a.results ≠ []) :
    handle_event ext a (TermEvent.key KeyCode.down KeyModifier.none)
      = { a with
          error_msg := none
          selected_idx := (a.selected_idx + 1) % a.results.length } := by
  unfold handle_event
  dsimp only
  rw [hm]
  unfold handle_normal_mode_event normal_move_down
  dsimp only
  rw [if_pos (not_isEmpty_of_ne_nil hne)]

theorem iterate_event_down_normal (ext : Ext) (n : Nat) :
    ∀ (a : App), a.mode = Mode.normal → a.results ≠ [] →
      a.selected_idx < a.results.length →
      (iterate_event ext (TermEvent.key KeyCode.down KeyModifier.none) n a).mode = Mode.normal
        ∧ (iterate_event ext (TermEvent.key KeyCode.down KeyModifier.none) n a).results
            = a.results
        ∧ (iterate_event ext (TermEvent.key KeyCode.down KeyModifier.none) n a).selected_idx
            = (a.selected_idx + n) % a.results.length := by
  induction n with
  | zero =>
    intro a hm hne hs
    refine ⟨hm, rfl, ?_⟩
    show a.selected_idx = (a.selected_idx + 0) % a.results.length
    rw [Nat.add_zero, Nat.mod_eq_of_lt hs]
  | succ n ih =>
    intro a hm hne hs
    have hstep := handle_event_down_normal ext a hm hne
    have hlen : 0 < a.results.length := List.length_pos.mpr hne
    obtain ⟨cm, cr, cs⟩ :=
      ih (handle_event ext a (TermEvent.key KeyCode.down KeyModifier.none))
        (by rw [hstep]; exact hm)
        (by rw [hstep]; exact hne)
        (by rw [hstep]; exact Nat.mod_lt _ hlen)
    have hiter : iterate_event ext (TermEvent.key KeyCode.down KeyModifier.none) (n + 1) a
        = iterate_event ext (TermEvent.key KeyCode.down KeyModifier.none) n
          (handle_event ext a (TermEvent.key KeyCode.down KeyModifier.none)) := rfl
    refine ⟨?_, ?_, ?_⟩
    · rw [hiter]
      exact cm
    · rw [hiter, cr, hstep]
    · rw [hiter, cs, hstep]
      show ((a.selected_idx + 1) % a.results.length + n) % a.results.length
        = (a.selected_idx + (n + 1)) % a.results.length
      rw [Nat.mod_add_mod]
      congr 1
      omega

/-- C5: in Normal mode with non-empty `results` and an in-bounds starting
selection, dispatching the move-selection-down event exactly
`length(results)` times returns `selected` to its starting value. -/
theorem move_down_full_cycle (ext : Ext) (a : App)
    (hm : a.mode = Mode.normal) (hne : a.results ≠ [])
    (hs : a.selected_idx < a.results.length) :
    (iterate_event ext (TermEvent.key KeyCode.down KeyModifier.none)
        a.results.length a).selected_idx = a.selected_idx := by
  obtain ⟨-, -, cs⟩ := iterate_event_down_normal ext a.results.length a hm hne hs
  rw [cs, Nat.add_mod_right]
  exact Nat.mod_eq_of_lt hs

/-- Witness for C5: two results, starting selection 1; two `Down`
dispatches wrap the selection back to 1. -/
theorem move_down_full_cycle_witness :
    ({ App.new "" with
        results := [MdNode.text "r1", MdNode.text "r2"], selected_idx := 1 } : App).mode
        = Mode.normal
      ∧ (iterate_event
          { parse := fun _ => .ok []
            evaluate := fun _ _ => .ok []
            clipboard_new := true
            clipboard_set := true }
          (TermEvent.key KeyCode.down KeyModifier.none)
          ({ App.new "" with
              results := [MdNode.text "r1", MdNode.text "r2"],
              selected_idx := 1 } : App).results.length
          { App.new "" with
              results := [MdNode.text "r1", MdNode.text "r2"], selected_idx := 1 }).selected_idx
        = ({ App.new "" with
              results := [MdNode.text "r1", MdNode.text "r2"],
              selected_idx := 1 } : App).selected_idx :=
  ⟨rfl, move_down_full_cycle _ _ rfl (List.cons_ne_nil _ _) (by decide)⟩


theorem clamp_selected_query_history (a : App) :
    (clamp_selected a).query_history = a.query_history := by
  unfold clamp_selected
  split <;> rfl

theorem exec_query_query_history (ext : Ext) (a : App) :
    (exec_query ext a).query_history = a.query_history := by
  unfold exec_query
  cases hp : ext.parse a.content with
  | ok nodes =>
    dsimp only
    split
    · cases he : ext.evaluate a.query (nodes.map RVal.markdown) with
      | ok results => rw [clamp_selected_query_history]
      | error err => rw [clamp_selected_query_history]
    · rw [clamp_selected_query_history]
  | error err => rw [clamp_selected_query_history]

theorem init_tree_view_query_history (ext : Ext) (a : App) :
    (init_tree_view ext a).query_history = a.query_history := by
  unfold init_tree_view
  cases ext.parse a.content <;> rfl

/-- C8: across every event dispatch, the query history is appended to
exactly when Enter is pressed in Query mode with a non-empty query that
differs from the last history entry — in which case exactly that query is
appended — and is unchanged otherwise. -/
theorem query_history_commit_only (ext : Ext) (a : App) (e : TermEvent) :
    (handle_event ext a e).query_history =
      if a.mode = Mode.query ∧ is_enter_key e = true ∧ a.query ≠ []
          ∧ a.query_history.getLast? ≠ some a.query
      then a.query_history ++ [a.query]
      else a.query_history := by
  unfold handle_event
  dsimp only
  cases hm : a.mode
  case normal =>
    rw [if_neg (by simp [hm])]
    unfold handle_normal_mode_event
    cases e with
    | other => rfl
    | key code mods =>
      cases code with
      | char c =>
        dsimp only
        split_ifs
        all_goals first
          | rfl
          | rw [init_tree_view_query_history]
          | rw [exec_query_query_history]
          | (unfold normal_move_down; split <;> rfl)
          | (unfold normal_move_up; split <;> rfl)
          | (unfold normal_copy_results; split_ifs <;> rfl)
      | f n =>
        dsimp only
        split_ifs <;> rfl
      | down =>
        dsimp only
        unfold normal_move_down
        split <;> rfl
      | up =>
        dsimp only
        unfold normal_move_up
        split <;> rfl
      | pageDown =>
        dsimp only
        split <;> rfl
      | pageUp =>
        dsimp only
        split <;> rfl
      | home =>
        dsimp only
        split <;> rfl
      | endKey =>
        dsimp only
        split <;> rfl
      | _ => rfl
  case help =>
    rw [if_neg (by simp [hm])]
    unfold handle_help_mode_event
    cases e <;> rfl
  case treeView =>
    rw [if_neg (by simp [hm])]
    unfold handle_tree_view_mode_event
    cases e with
    | other => rfl
    | key code mods =>
      cases code with
      | char c =>
        dsimp only
        split_ifs <;> rfl
      | f n =>
        dsimp only
        split_ifs <;> rfl
      | _ => rfl
  case query =>
    dsimp only
    unfold handle_query_mode_event
    cases e with
    | other =>
      have hneg : ¬(Mode.query = Mode.query ∧ is_enter_key TermEvent.other = true
          ∧ a.query ≠ [] ∧ a.query_history.getLast? ≠ some a.query) := by
        simp [is_enter_key]
      rw [if_neg hneg]
    | key code mods =>
      cases code with
      | enter =>
        dsimp only
        rw [exec_query_query_history]
        by_cases hq : a.query = []
        · have hneg : ¬(Mode.query = Mode.query
              ∧ is_enter_key (TermEvent.key KeyCode.enter mods) = true
              ∧ a.query ≠ [] ∧ a.query_history.getLast? ≠ some a.query) := by
            simp [hq]
          rw [if_neg (by rw [hq]; simp), if_neg hneg]
        · rw [if_pos (by simpa [List.isEmpty_iff] using hq)]
          by_cases hdup : a.query_history.getLast? = some a.query
          · have hne : ¬a.query_history.isEmpty = true := by
              intro hcon
              rw [List.isEmpty_iff] at hcon
              rw [hcon] at hdup
              simp at hdup
            have hneg : ¬(Mode.query = Mode.query
                ∧ is_enter_key (TermEvent.key KeyCode.enter mods) = true
                ∧ a.query ≠ [] ∧ a.query_history.getLast? ≠ some a.query) := by
              simp [hdup]
            rw [if_neg (by simp [hne, hdup]), if_neg hneg]
          · rw [if_pos (by right; simpa using hdup),
              if_pos ⟨rfl, rfl, hq, by simpa using hdup⟩]
      | esc =>
        have hneg : ¬(Mode.query = Mode.query
            ∧ is_enter_key (TermEvent.key KeyCode.esc mods) = true
            ∧ a.query ≠ [] ∧ a.query_history.getLast? ≠ some a.query) := by
          simp [is_enter_key]
        rw [if_neg hneg]
      | char c =>
        have hneg : ¬(Mode.query = Mode.query
            ∧ is_enter_key (TermEvent.key (KeyCode.char c) mods) = true
            ∧ a.query ≠ [] ∧ a.query_history.getLast? ≠ some a.query) := by
          simp [is_enter_key]
        rw [if_neg hneg]
        dsimp only
        split_ifs
        · rw [exec_query_query_history]
        · rfl
      | backspace =>
        have hneg : ¬(Mode.query = Mode.query
            ∧ is_enter_key (TermEvent.key KeyCode.backspace mods) = true
            ∧ a.query ≠ [] ∧ a.query_history.getLast? ≠ some a.query) := by
          simp [is_enter_key]
        rw [if_neg hneg]
        dsimp only
        split
        · rw [exec_query_query_history]
        · rfl
      | delete =>
        have hneg : ¬(Mode.query = Mode.query
            ∧ is_enter_key (TermEvent.key KeyCode.delete mods) = true
            ∧ a.query ≠ [] ∧ a.query_history.getLast? ≠ some a.query) := by
          simp [is_enter_key]
        rw [if_neg hneg]
        dsimp only
        split
        · rw [exec_query_query_history]
        · rfl
      | left =>
        have hneg : ¬(Mode.query = Mode.query
            ∧ is_enter_key (TermEvent.key KeyCode.left mods) = true
            ∧ a.query ≠ [] ∧ a.query_history.getLast? ≠ some a.query) := by
          simp [is_enter_key]
        rw [if_neg hneg]
        dsimp only
        split <;> rfl
      | right =>
        have hneg : ¬(Mode.query = Mode.query
            ∧ is_enter_key (TermEvent.key KeyCode.right mods) = true
            ∧ a.query ≠ [] ∧ a.query_history.getLast? ≠ some a.query) := by
          simp [is_enter_key]
        rw [if_neg hneg]
        dsimp only
        split <;> rfl
      | home =>
        have hneg : ¬(Mode.query = Mode.query
            ∧ is_enter_key (TermEvent.key KeyCode.home mods) = true
            ∧ a.query ≠ [] ∧ a.query_history.getLast? ≠ some a.query) := by
          simp [is_enter_key]
        rw [if_neg hneg]
      | endKey =>
        have hneg : ¬(Mode.query = Mode.query
            ∧ is_enter_key (TermEvent.key KeyCode.endKey mods) = true
            ∧ a.query ≠ [] ∧ a.query_history.getLast? ≠ some a.query) := by
          simp [is_enter_key]
        rw [if_neg hneg]
      | up =>
        have hneg : ¬(Mode.query = Mode.query
            ∧ is_enter_key (TermEvent.key KeyCode.up mods) = true
            ∧ a.query ≠ [] ∧ a.query_history.getLast? ≠ some a.query) := by
          simp [is_enter_key]
        rw [if_neg hneg]
        dsimp only
        split
        · cases a.history_position with
          | none => rfl
          | some pos =>
            dsimp only
            split_ifs <;> rfl
        · rfl
      | down =>
        have hneg : ¬(Mode.query = Mode.query
            ∧ is_enter_key (TermEvent.key KeyCode.down mods) = true
            ∧ a.query ≠ [] ∧ a.query_history.getLast? ≠ some a.query) := by
          simp [is_enter_key]
        rw [if_neg hneg]
        cases a.history_position with
        | none => rfl
        | some pos =>
          dsimp only
          split_ifs <;> rfl
      | f n =>
        have hneg : ¬(Mode.query = Mode.query
            ∧ is_enter_key (TermEvent.key (KeyCode.f n) mods) = true
            ∧ a.query ≠ [] ∧ a.query_history.getLast? ≠ some a.query) := by
          simp [is_enter_key]
        rw [if_neg hneg]
      | pageUp =>
        have hneg : ¬(Mode.query = Mode.query
            ∧ is_enter_key (TermEvent.key KeyCode.pageUp mods) = true
            ∧ a.query ≠ [] ∧ a.query_history.getLast? ≠ some a.query) := by
          simp [is_enter_key]
        rw [if_neg hneg]
      | pageDown =>
        have hneg : ¬(Mode.query = Mode.query
            ∧ is_enter_key (TermEvent.key KeyCode.pageDown mods) = true
            ∧ a.query ≠ [] ∧ a.query_history.getLast? ≠ some a.query) := by
          simp [is_enter_key]
        rw [if_neg hneg]


/-- C9: submit query "a", then query "b" (clearing in between), re-enter
Query mode fresh; the first up-arrow loads "b" (cursor at end), the second
loads "a" (cursor at end); one down-arrow returns to "b"; a further
down-arrow clears the live query, resets history browsing, and puts the
cursor at the end of the (empty) text. -/
theorem history_browsing_scenario :
    (run_events
        { parse := fun _ => .ok []
          evaluate := fun _ _ => .ok []
          clipboard_new := true
          clipboard_set := true }
        (App.new "")
        [.key (KeyCode.char ':') KeyModifier.none, .key (KeyCode.char 'a') KeyModifier.none, .key KeyCode.enter KeyModifier.none, .key (KeyCode.char ':') KeyModifier.none, .key KeyCode.backspace KeyModifier.none, .key (KeyCode.char 'b') KeyModifier.none, .key KeyCode.enter KeyModifier.none, .key (KeyCode.char ':') KeyModifier.none, .key KeyCode.up KeyModifier.none, .key KeyCode.up KeyModifier.none]).query = ['a']
      ∧ (run_events
        { parse := fun _ => .ok []
          evaluate := fun _ _ => .ok []
          clipboard_new := true
          clipboard_set := true }
        (App.new "")
        [.key (KeyCode.char ':') KeyModifier.none, .key (KeyCode.char 'a') KeyModifier.none, .key KeyCode.enter KeyModifier.none, .key (KeyCode.char ':') KeyModifier.none, .key KeyCode.backspace KeyModifier.none, .key (KeyCode.char 'b') KeyModifier.none, .key KeyCode.enter KeyModifier.none, .key (KeyCode.char ':') KeyModifier.none, .key KeyCode.up KeyModifier.none, .key KeyCode.up KeyModifier.none]).cursor_position = 1
      ∧ (run_events
        { parse := fun _ => .ok []
          evaluate := fun _ _ => .ok []
          clipboard_new := true
          clipboard_set := true }
        (App.new "")
        [.key (KeyCode.char ':') KeyModifier.none, .key (KeyCode.char 'a') KeyModifier.none, .key KeyCode.enter KeyModifier.none, .key (KeyCode.char ':') KeyModifier.none, .key KeyCode.backspace KeyModifier.none, .key (KeyCode.char 'b') KeyModifier.none, .key KeyCode.enter KeyModifier.none, .key (KeyCode.char ':') KeyModifier.none, .key KeyCode.up KeyModifier.none, .key KeyCode.up KeyModifier.none, .key KeyCode.down KeyModifier.none]).query = ['b']
      ∧ (run_events
        { parse := fun _ => .ok []
          evaluate := fun _ _ => .ok []
          clipboard_new := true
          clipboard_set := true }
        (App.new "")
        [.key (KeyCode.char ':') KeyModifier.none, .key (KeyCode.char 'a') KeyModifier.none, .key KeyCode.enter KeyModifier.none, .key (KeyCode.char ':') KeyModifier.none, .key KeyCode.backspace KeyModifier.none, .key (KeyCode.char 'b') KeyModifier.none, .key KeyCode.enter KeyModifier.none, .key (KeyCode.char ':') KeyModifier.none, .key KeyCode.up KeyModifier.none, .key KeyCode.up KeyModifier.none, .key KeyCode.down KeyModifier.none]).cursor_position = 1
      ∧ (run_events
        { parse := fun _ => .ok []
          evaluate := fun _ _ => .ok []
          clipboard_new := true
          clipboard_set := true }
        (App.new "")
        [.key (KeyCode.char ':') KeyModifier.none, .key (KeyCode.char 'a') KeyModifier.none, .key KeyCode.enter KeyModifier.none, .key (KeyCode.char ':') KeyModifier.none, .key KeyCode.backspace KeyModifier.none, .key (KeyCode.char 'b') KeyModifier.none, .key KeyCode.enter KeyModifier.none, .key (KeyCode.char ':') KeyModifier.none, .key KeyCode.up KeyModifier.none, .key KeyCode.up KeyModifier.none, .key KeyCode.down KeyModifier.none, .key KeyCode.down KeyModifier.none]).query = []
      ∧ (run_events
        { parse := fun _ => .ok []
          evaluate := fun _ _ => .ok []
          clipboard_new := true
          clipboard_set := true }
        (App.new "")
        [.key (KeyCode.char ':') KeyModifier.none, .key (KeyCode.char 'a') KeyModifier.none, .key KeyCode.enter KeyModifier.none, .key (KeyCode.char ':') KeyModifier.none, .key KeyCode.backspace KeyModifier.none, .key (KeyCode.char 'b') KeyModifier.none, .key KeyCode.enter KeyModifier.none, .key (KeyCode.char ':') KeyModifier.none, .key KeyCode.up KeyModifier.none, .key KeyCode.up KeyModifier.none, .key KeyCode.down KeyModifier.none, .key KeyCode.down KeyModifier.none]).history_position = none
      ∧ (run_events
        { parse := fun _ => .ok []
          evaluate := fun _ _ => .ok []
          clipboard_new := true
          clipboard_set := true }
        (App.new "")
        [.key (KeyCode.char ':') KeyModifier.none, .key (KeyCode.char 'a') KeyModifier.none, .key KeyCode.enter KeyModifier.none, .key (KeyCode.char ':') KeyModifier.none, .key KeyCode.backspace KeyModifier.none, .key (KeyCode.char 'b') KeyModifier.none, .key KeyCode.enter KeyModifier.none, .key (KeyCode.char ':') KeyModifier.none, .key KeyCode.up KeyModifier.none, .key KeyCode.up KeyModifier.none, .key KeyCode.down KeyModifier.none, .key KeyCode.down KeyModifier.none]).cursor_position = 0
      ∧ (run_events
        { parse := fun _ => .ok []
          evaluate := fun _ _ => .ok []
          clipboard_new := true
          clipboard_set := true }
        (App.new "")
        [.key (KeyCode.char ':') KeyModifier.none, .key (KeyCode.char 'a') KeyModifier.none, .key KeyCode.enter KeyModifier.none, .key (KeyCode.char ':') KeyModifier.none, .key KeyCode.backspace KeyModifier.none, .key (KeyCode.char 'b') KeyModifier.none, .key KeyCode.enter KeyModifier.none, .key (KeyCode.char ':') KeyModifier.none, .key KeyCode.up KeyModifier.none]).query = ['b']
      ∧ (run_events
        { parse := fun _ => .ok []
          evaluate := fun _ _ => .ok []
          clipboard_new := true
          clipboard_set := true }
        (App.new "")
        [.key (KeyCode.char ':') KeyModifier.none, .key (KeyCode.char 'a') KeyModifier.none, .key KeyCode.enter KeyModifier.none, .key (KeyCode.char ':') KeyModifier.none, .key KeyCode.backspace KeyModifier.none, .key (KeyCode.char 'b') KeyModifier.none, .key KeyCode.enter KeyModifier.none, .key (KeyCode.char ':') KeyModifier.none, .key KeyCode.up KeyModifier.none]).cursor_position = 1 := by
  decide


/-- C10 (code bug): deriving the display text is not total.  For a `Text`
node whose trimmed value is 46 ASCII characters followed by three
two-byte characters (52 bytes > 50), the truncation slices `&text[..47]`,
and byte 47 falls inside the first two-byte character — not a UTF-8
character boundary — so the Rust code panics; the model returns `none`. -/
theorem create_display_text_panics_on_multibyte_boundary :
    create_display_text (fun _ => "")
      (MdNode.text (String.mk (List.replicate 46 'a' ++ ['α', 'α', 'α']))) = none := by
  decide

end Mqt
